import Mathlib

/-!
Shallow embedding of the multi-chart synchronized viewport and live-update
reconciliation engine of `src/apps/desktop/src/components/charts/ChartList.tsx`.

JavaScript numbers are modelled as rationals (`ℚ`); sample indices as
integers (`ℤ`); a chart's data series as a Lean `List`.  A sample row is an
association list from string keys to JavaScript values, where a JavaScript
value is either a finite number, `NaN`, an infinity, or a string.
-/

namespace PerfX

/-- JavaScript `Math.round`: rounds to the nearest integer, half toward
positive infinity, i.e. `⌊x + 1/2⌋`. -/
def jsRound (q : ℚ) : ℤ := ⌊q + 1/2⌋

/-- JavaScript `Array.prototype.slice(begin, stop)`: negative arguments count
from the end of the array; the result holds the elements of positions
`[relBegin, relStop)`. -/
def jsSlice {α : Type} (l : List α) (b e : ℤ) : List α :=
  let len : ℤ := l.length
  let relB : ℤ := if b < 0 then max (len + b) 0 else min b len
  let relE : ℤ := if e < 0 then max (len + e) 0 else min e len
  (l.take relE.toNat).drop relB.toNat

/-- A JavaScript value occurring in a sample row: the TSX type is
`number | string`, and a `number` is a finite rational, `NaN`, or an
infinity. -/
inductive JSVal : Type where
  | num (q : ℚ)
  | nan
  | inf (pos : Bool)
  | str (s : String)
deriving DecidableEq, Repr

/-- One sample row: a mapping from keys (the x-key and the line data keys) to
values, as delivered by the metric stream. -/
abbrev Sample := List (String × JSVal)

/-- JavaScript property access `item[key]`: `none` models `undefined` for a
missing key. -/
def getField (r : Sample) (k : String) : Option JSVal := r.lookup k

/-- The `BrushState` record of `ChartList.tsx`: the shared percentage-based
viewport, fields `start` and `end` (percentages of the data range). -/
structure BrushState : Type where
  start : ℚ
  «end» : ℚ
deriving DecidableEq, Repr

/-- The state of one `ChartItem` together with the shared `ChartList`
context visible to it: `dragging` is the chart's local `draggingRef`,
`sharedInteracting` the context's `dragging` flag, `displayData` and
`pendingData` the chart's buffers, and `brush` the shared viewport. -/
structure ChartState (α : Type) : Type where
  dragging : Bool
  sharedInteracting : Bool
  displayData : List α
  pendingData : Option (List α)
  brush : BrushState

/-- The data-refresh effect of `ChartItem` (the `useEffect` on `[data]`):
if the chart is being dragged the fresh `data` is stashed in `pendingData`
(overwriting any previous pending value), otherwise it replaces
`displayData` immediately. -/
def dataUpdate {α : Type} (s : ChartState α) (data : List α) : ChartState α :=
  if s.dragging then { s with pendingData := some data }
  else { s with displayData := data }

/-- The settle-timer callback of `handleBrushChange`: clears the local
dragging flag and the shared interacting flag, applies `pendingData` to
`displayData` when one is buffered, and empties `pendingData`. -/
def settle {α : Type} (s : ChartState α) : ChartState α :=
  { s with
    dragging := false
    sharedInteracting := false
    displayData := match s.pendingData with
      | some d => d
      | none => s.displayData
    pendingData := none }

/-- The `brushIndexRange` memo of `ChartItem`: maps the percentage viewport
to absolute indices for a series of length `len`.
`maxIndex = max(len - 1, 0)`; when `maxIndex ≤ 0` both indices are `0`;
otherwise `toIndex pct = max(0, min(maxIndex, round(pct / 100 * maxIndex)))`
applied independently to `brush.start` and `brush.end`. -/
def brushIndexRange (b : BrushState) (len : ℕ) : ℤ × ℤ :=
  let maxIndex : ℤ := max ((len : ℤ) - 1) 0
  if maxIndex ≤ 0 then (0, 0)
  else
    let toIndex : ℚ → ℤ := fun pct =>
      max 0 (min maxIndex (jsRound (pct / 100 * (maxIndex : ℚ))))
    (toIndex b.start, toIndex b.«end»)

/-- The `visibleData` memo of `ChartItem`: an empty series is returned as
is; otherwise the start bound is clamped into `[0, len-1]`, the end bound is
`max(start, min(len-1, endIndex))`, and the result is
`displayData.slice(start, end + 1)`. -/
def visibleData {α : Type} (displayData : List α) (r : ℤ × ℤ) : List α :=
  if displayData.length = 0 then displayData
  else
    let start : ℤ := max 0 (min ((displayData.length : ℤ) - 1) r.1)
    let stop : ℤ := max start (min ((displayData.length : ℤ) - 1) r.2)
    jsSlice displayData start (stop + 1)

/-- The values feeding one line's statistics in the `stats` memo:
`visibleData.map(item => item[key]).filter(v => typeof v === "number" &&
Number.isFinite(v))` — the finite numeric values for the line's key, keeping
their order and multiplicity; missing keys, strings, `NaN` and infinities
are dropped. -/
def lineValues (rows : List Sample) (k : String) : List ℚ :=
  (rows.map (fun r => getField r k)).filterMap (fun v =>
    match v with
    | some (JSVal.num q) => some q
    | _ => none)

/-- One line's statistics from the `stats` memo: `none` (the TSX `null`
sentinel for `max`, `min` and `avg`) when no finite numeric value exists,
otherwise `(Math.max(...values), Math.min(...values),
values.reduce((sum, v) => sum + v, 0) / values.length)`. -/
def statsFor (rows : List Sample) (k : String) : Option (ℚ × ℚ × ℚ) :=
  match lineValues rows k with
  | [] => none
  | v :: vs =>
      some (vs.foldl max v, vs.foldl min v,
        (v :: vs).foldl (fun sum w => sum + w) 0 / ((v :: vs).length : ℚ))

/-- Left-pads a digit string with zeros to width `w` (the fraction part of
`toFixed`). -/
def padZeros (s : String) (w : ℕ) : String :=
  if w ≤ s.length then s else String.mk (List.replicate (w - s.length) '0') ++ s

/-- JavaScript `Number.prototype.toFixed(f)` on a finite rational: the
integer `n` nearest to `|q| * 10^f` (ties toward the larger `n`), rendered
with `f` fraction digits and the sign of `q`. -/
def toFixed (q : ℚ) (f : ℕ) : String :=
  let sign : String := if q < 0 then "-" else ""
  let n : ℕ := (⌊|q| * (10 : ℚ) ^ f + 1/2⌋).toNat
  if f = 0 then sign ++ toString n
  else sign ++ toString (n / 10 ^ f) ++ "." ++ padZeros (toString (n % 10 ^ f)) f

/-- The `formatNumber` callback of `ChartItem`: `null` renders as an em
dash; a magnitude of at least 100 renders with `toFixed(0)`; anything else
with `toFixed(1)`.  (The TSX also maps `NaN` to the em dash; in the rational
model statistics are never `NaN`.) -/
def formatNumber : Option ℚ → String
  | none => "—"
  | some v => if 100 ≤ |v| then toFixed v 0 else toFixed v 1

/-- The index-to-percentage mapping inside `handleBrushChange`:
`maxIndex = max(len - 1, 1)` and
`toPct idx = max(0, min(100, idx / maxIndex * 100))`. -/
def toPct (len : ℕ) (idx : ℚ) : ℚ :=
  let maxIndex : ℚ := max ((len : ℚ) - 1) 1
  max 0 (min 100 (idx / maxIndex * 100))

/-- The `handleBrushChange` callback (state part): when either reported
index is `undefined` nothing happens; otherwise the local dragging flag and
the shared interacting flag are set and the reported indices are pushed to
the shared viewport as percentages via `toPct` over the current
`displayData` length.  (The settle timer it (re)starts is modelled by the
separate `settle` event.) -/
def brushChange {α : Type} (s : ChartState α) (si ei : Option ℤ) : ChartState α :=
  match si, ei with
  | some a, some b =>
      { s with
        dragging := true
        sharedInteracting := true
        brush := ⟨toPct s.displayData.length (a : ℚ), toPct s.displayData.length (b : ℚ)⟩ }
  | _, _ => s

/-- The viewport self-correction effect of `ChartItem` (the `useEffect` on
`[brush.start, brush.end, displayData.length, setBrush]`): skipped while
dragging and when `max(len - 1, 0) ≤ 0`; otherwise
`pctStart = max(0, min(start, 100))`, `pctEnd = max(pctStart, min(end, 100))`,
and `setBrush` is called (`some` result) exactly when a value changed. -/
def viewportCorrection {α : Type} (s : ChartState α) : Option BrushState :=
  if s.dragging then none
  else
    let maxIndex : ℤ := max ((s.displayData.length : ℤ) - 1) 0
    if maxIndex ≤ 0 then none
    else
      let pctStart : ℚ := max 0 (min s.brush.start 100)
      let pctEnd : ℚ := max pctStart (min s.brush.«end» 100)
      if pctStart ≠ s.brush.start ∨ pctEnd ≠ s.brush.«end» then some ⟨pctStart, pctEnd⟩
      else none

/-- The viewport actually in force after the self-correction effect ran:
the corrected value when `setBrush` was called, the old one otherwise. -/
def afterCorrection {α : Type} (s : ChartState α) : BrushState :=
  (viewportCorrection s).getD s.brush

/-- The Windowing Function exactly as §4.2 of the spec words it (for
comparison with `brushIndexRange`): if `len ≤ 1` both indices are 0;
otherwise `index(pct) = round(clamp(pct, 0, 100) / 100 * maxIndex)`, clamped
again into `[0, maxIndex]`. -/
def specBrushIndexRange (b : BrushState) (len : ℕ) : ℤ × ℤ :=
  if len ≤ 1 then (0, 0)
  else
    let maxIndex : ℤ := (len : ℤ) - 1
    let index : ℚ → ℤ := fun pct =>
      max 0 (min maxIndex (jsRound (max 0 (min pct 100) / 100 * (maxIndex : ℚ))))
    (index b.start, index b.«end»)

/-- The inverse windowing direction exactly as §4.2 of the spec words it
(for comparison with `toPct`):
`pct(idx) = clamp(idx / max(len - 1, 1), 0, 1) * 100`. -/
def specToPct (len : ℕ) (idx : ℚ) : ℚ :=
  max 0 (min 1 (idx / max ((len : ℚ) - 1) 1)) * 100

/-- The three-sample scenario series of §8 of the spec:
`[{t:0,fps:10},{t:1,fps:60},{t:2,fps:30}]`. -/
def scenarioRows : List Sample :=
  [[("t", JSVal.num 0), ("fps", JSVal.num 10)],
   [("t", JSVal.num 1), ("fps", JSVal.num 60)],
   [("t", JSVal.num 2), ("fps", JSVal.num 30)]]

/-- C1: while a chart is Interacting (its dragging flag is set), `displayData`
is unchanged across any number of incoming `liveData` updates, the dragging
flag stays set, and after the updates `pendingData` holds exactly the most
recent arrival (each new arrival overwrites any previous pending value);
when no update arrived, `pendingData` is unchanged. -/
theorem freeze_invariant {α : Type} (s : ChartState α) (ds : List (List α))
    (h : s.dragging = true) :
    (ds.foldl dataUpdate s).displayData = s.displayData ∧
    (ds.foldl dataUpdate s).dragging = true ∧
    (ds.foldl dataUpdate s).pendingData =
      (match ds.getLast? with
        | some d => some d
        | none => s.pendingData) := by
  induction ds generalizing s with
  | nil => exact ⟨rfl, h, rfl⟩
  | cons d ds ih =>
      have hstep : dataUpdate s d = { s with pendingData := some d } := by
        simp [dataUpdate, h]
      obtain ⟨h1, h2, h3⟩ := ih (dataUpdate s d) (by rw [hstep]; exact h)
      rw [List.foldl_cons]
      refine ⟨by rw [h1, hstep], h2, ?_⟩
      rw [h3]
      cases ds with
      | nil => simp [hstep]
      | cons e es =>
          rw [List.getLast?_cons_cons]
          cases hgl : (e :: es).getLast? with
          | some x => simp only [hgl]
          | none => exact absurd hgl (by simp)

/-- C1 witness: a concrete dragging state absorbing two updates. -/
theorem freeze_invariant_witness :
    ((([[1], [2]] : List (List ℕ)).foldl dataUpdate
        ⟨true, true, [0], none, ⟨0, 100⟩⟩).displayData = [0] ∧
      (([[1], [2]] : List (List ℕ)).foldl dataUpdate
        ⟨true, true, [0], none, ⟨0, 100⟩⟩).dragging = true ∧
      (([[1], [2]] : List (List ℕ)).foldl dataUpdate
        ⟨true, true, [0], none, ⟨0, 100⟩⟩).pendingData =
        (match ([[1], [2]] : List (List ℕ)).getLast? with
          | some d => some d
          | none => none)) :=
  freeze_invariant ⟨true, true, [0], none, ⟨0, 100⟩⟩ [[1], [2]] rfl

/-- C2: the settle-timer callback clears the local dragging flag and the
shared interacting flag, makes `displayData` equal to the buffered
`pendingData` (or leaves it unchanged when nothing is pending), and empties
`pendingData`; the viewport is untouched. -/
theorem settle_application {α : Type} (s : ChartState α) :
    (settle s).dragging = false ∧
    (settle s).sharedInteracting = false ∧
    (settle s).pendingData = none ∧
    (settle s).displayData =
      (match s.pendingData with
        | some d => d
        | none => s.displayData) ∧
    (settle s).brush = s.brush := by
  cases h : s.pendingData <;> simp [settle, h]

/-- C10: for every series and every reported index pair — inverted and
out-of-range pairs included — the rendered slice is the contiguous block of
`displayData` between the re-clamped bounds, and it is non-empty whenever
`displayData` is. -/
theorem visibleData_contiguous {α : Type} (l : List α) (si ei : ℤ) (h : l ≠ []) :
    ∃ s e : ℤ,
      s = max 0 (min ((l.length : ℤ) - 1) si) ∧
      e = max s (min ((l.length : ℤ) - 1) ei) ∧
      0 ≤ s ∧ s ≤ e ∧ e ≤ (l.length : ℤ) - 1 ∧
      visibleData l (si, ei) = (l.drop s.toNat).take (e - s + 1).toNat ∧
      visibleData l (si, ei) ≠ [] := by
  have hlen : 1 ≤ (l.length : ℤ) := by
    have := List.length_pos.mpr h
    omega
  have hs0 : 0 ≤ max 0 (min ((l.length : ℤ) - 1) si) := le_max_left 0 _
  have hs1 : max 0 (min ((l.length : ℤ) - 1) si) ≤ (l.length : ℤ) - 1 :=
    max_le (by omega) (min_le_left _ _)
  set s : ℤ := max 0 (min ((l.length : ℤ) - 1) si) with hs_def
  have he0 : s ≤ max s (min ((l.length : ℤ) - 1) ei) := le_max_left _ _
  have he1 : max s (min ((l.length : ℤ) - 1) ei) ≤ (l.length : ℤ) - 1 :=
    max_le hs1 (min_le_left _ _)
  set e : ℤ := max s (min ((l.length : ℤ) - 1) ei) with he_def
  have hvis : visibleData l (si, ei) = (l.drop s.toNat).take (e - s + 1).toNat := by
    have hne : ¬ l.length = 0 := by omega
    rw [visibleData, if_neg hne]
    show jsSlice l s (e + 1) = _
    rw [jsSlice]
    have hb : ¬ s < 0 := by omega
    have hee : ¬ e + 1 < 0 := by omega
    simp only [if_neg hb, if_neg hee]
    have hmins : min s (l.length : ℤ) = s := min_eq_left (by omega)
    have hmine : min (e + 1) (l.length : ℤ) = e + 1 := min_eq_left (by omega)
    rw [hmins, hmine, List.drop_take]
    congr 1
    omega
  refine ⟨s, e, rfl, rfl, hs0, he0, he1, hvis, ?_⟩
  rw [hvis]
  have hlength : ((l.drop s.toNat).take (e - s + 1).toNat).length =
      min (e - s + 1).toNat (l.length - s.toNat) := by
    rw [List.length_take, List.length_drop]
  refine List.length_pos.mp ?_
  rw [hlength]
  omega

/-- C10 witness: a three-element series with an inverted, out-of-range index
pair still renders a non-empty contiguous slice. -/
theorem visibleData_contiguous_witness :
    ([9, 8, 7] : List ℕ) ≠ [] ∧
    ∃ s e : ℤ,
      s = max 0 (min ((([9, 8, 7] : List ℕ).length : ℤ) - 1) 5) ∧
      e = max s (min ((([9, 8, 7] : List ℕ).length : ℤ) - 1) (-4)) ∧
      0 ≤ s ∧ s ≤ e ∧ e ≤ (([9, 8, 7] : List ℕ).length : ℤ) - 1 ∧
      visibleData ([9, 8, 7] : List ℕ) (5, -4) =
        (([9, 8, 7] : List ℕ).drop s.toNat).take (e - s + 1).toNat ∧
      visibleData ([9, 8, 7] : List ℕ) (5, -4) ≠ [] :=
  ⟨by decide, visibleData_contiguous [9, 8, 7] 5 (-4) (by decide)⟩

theorem jsRound_intCast (z : ℤ) : jsRound (z : ℚ) = z := by
  rw [jsRound, add_comm, Int.floor_add_int]
  norm_num

theorem jsRound_mono {a b : ℚ} (h : a ≤ b) : jsRound a ≤ jsRound b :=
  Int.floor_le_floor (by linarith)

theorem jsRound_nonpos {a : ℚ} (h : a ≤ 0) : jsRound a ≤ 0 := by
  have h2 : jsRound a ≤ jsRound 0 := jsRound_mono h
  have h0 : jsRound (0 : ℚ) = 0 := by norm_num [jsRound]
  omega

/-- Clamping the percentage into `[0, 100]` before rounding gives the same
index as rounding first and clamping the index into `[0, maxIndex]`
afterwards (for `1 ≤ maxIndex`). -/
theorem clamp_round_comm (M : ℤ) (hM : 1 ≤ M) (pct : ℚ) :
    max 0 (min M (jsRound (pct / 100 * (M : ℚ)))) =
      max 0 (min M (jsRound (max 0 (min pct 100) / 100 * (M : ℚ)))) := by
  have hM0 : (0 : ℚ) ≤ (M : ℚ) := by exact_mod_cast le_trans zero_le_one hM
  rcases le_or_lt pct 0 with hneg | hpos
  · have hclamp : max 0 (min pct 100) = 0 :=
      max_eq_left (le_trans (min_le_left _ _) hneg)
    have hx : pct / 100 * (M : ℚ) ≤ 0 :=
      mul_nonpos_of_nonpos_of_nonneg (div_nonpos_of_nonpos_of_nonneg hneg (by norm_num)) hM0
    have hL : jsRound (pct / 100 * (M : ℚ)) ≤ 0 := jsRound_nonpos hx
    have hR : jsRound ((0 : ℚ) / 100 * (M : ℚ)) = 0 := by
      norm_num [jsRound]
    rw [hclamp, hR]
    rw [max_eq_left (le_trans (min_le_right _ _) hL),
      max_eq_left (le_trans (min_le_right M 0) (le_refl 0))]
  · rcases le_or_lt pct 100 with hle | hgt
    · have hclamp : max 0 (min pct 100) = pct := by
        rw [min_eq_left hle]
        exact max_eq_right (le_of_lt hpos)
      rw [hclamp]
    · have hclamp : max 0 (min pct 100) = 100 := by
        rw [min_eq_right (le_of_lt hgt)]
        exact max_eq_right (by norm_num)
      have hR : jsRound ((100 : ℚ) / 100 * (M : ℚ)) = M := by
        norm_num [jsRound_intCast]
      have hx : (M : ℚ) ≤ pct / 100 * (M : ℚ) := by
        have h1 : (1 : ℚ) ≤ pct / 100 := by
          rw [le_div_iff (by norm_num : (0:ℚ) < 100)]
          linarith
        nlinarith
      have hL : M ≤ jsRound (pct / 100 * (M : ℚ)) := by
        have := jsRound_mono hx
        rwa [jsRound_intCast] at this
      rw [hclamp, hR, min_self, max_eq_right (by omega),
        min_eq_left hL, max_eq_right (by omega)]

/-- C4: the forward windowing computation `brushIndexRange` agrees with the
spec's wording of the Windowing Function on every viewport and series
length: both indices are `0` for `len ≤ 1`, and otherwise each index is
`round(clamp(pct, 0, 100) / 100 * (len - 1))` clamped into `[0, len-1]`. -/
theorem brushIndexRange_matches_spec (b : BrushState) (len : ℕ) :
    brushIndexRange b len = specBrushIndexRange b len := by
  rw [brushIndexRange, specBrushIndexRange]
  rcases le_or_lt len 1 with hle | hgt
  · rw [if_pos (by omega : max ((len : ℤ) - 1) 0 ≤ 0), if_pos hle]
  · have hmax : max ((len : ℤ) - 1) 0 = (len : ℤ) - 1 := max_eq_left (by omega)
    rw [if_neg (by omega : ¬ max ((len : ℤ) - 1) 0 ≤ 0), if_neg (by omega : ¬ len ≤ 1)]
    simp only [hmax]
    rw [clamp_round_comm ((len : ℤ) - 1) (by omega) b.start,
      clamp_round_comm ((len : ℤ) - 1) (by omega) b.«end»]

/-- C3 counterexample: for the inverted viewport `(start, end) = (100, 0)`
and a series of length 2, `brushIndexRange` itself returns
`startIndex = 1 > endIndex = 0`: the claimed `max` enforcement is not part
of this computation. -/
theorem brushIndexRange_inverted_viewport :
    brushIndexRange ⟨100, 0⟩ 2 = (1, 0) ∧
    ¬ (brushIndexRange ⟨100, 0⟩ 2).1 ≤ (brushIndexRange ⟨100, 0⟩ 2).2 := by
  constructor <;> norm_num [brushIndexRange, jsRound]

/-- C3 amended: for every viewport with `start ≤ end` and every series
length `len ≥ 1`, `brushIndexRange` returns `startIndex ≤ endIndex` with
both indices in `[0, len-1]`; for inverted viewports the order can be
violated by `brushIndexRange` itself, and `endIndex = max(startIndex,
endIndex)` is enforced only downstream, in `visibleData`. -/
theorem brushIndexRange_monotone (b : BrushState) (len : ℕ)
    (hse : b.start ≤ b.«end») (hlen : 1 ≤ len) :
    (brushIndexRange b len).1 ≤ (brushIndexRange b len).2 ∧
    0 ≤ (brushIndexRange b len).1 ∧ (brushIndexRange b len).1 ≤ (len : ℤ) - 1 ∧
    0 ≤ (brushIndexRange b len).2 ∧ (brushIndexRange b len).2 ≤ (len : ℤ) - 1 := by
  rw [brushIndexRange]
  rcases le_or_lt len 1 with hle | hgt
  · rw [if_pos (by omega : max ((len : ℤ) - 1) 0 ≤ 0)]
    refine ⟨le_refl 0, le_refl 0, by omega, le_refl 0, by omega⟩
  · have hmax : max ((len : ℤ) - 1) 0 = (len : ℤ) - 1 := max_eq_left (by omega)
    rw [if_neg (by omega : ¬ max ((len : ℤ) - 1) 0 ≤ 0)]
    simp only [hmax]
    have hmono : jsRound (b.start / 100 * (((len : ℤ) - 1 : ℤ) : ℚ)) ≤
        jsRound (b.«end» / 100 * (((len : ℤ) - 1 : ℤ) : ℚ)) := by
      refine jsRound_mono ?_
      have hq : (0 : ℚ) ≤ (((len : ℤ) - 1 : ℤ) : ℚ) := by
        push_cast
        have : (2 : ℚ) ≤ (len : ℚ) := by exact_mod_cast hgt
        linarith
      have hdiv : b.start / 100 ≤ b.«end» / 100 := by linarith
      exact mul_le_mul_of_nonneg_right hdiv hq
    refine ⟨?_, le_max_left 0 _, max_le (by omega) (min_le_left _ _),
      le_max_left 0 _, max_le (by omega) (min_le_left _ _)⟩
    exact max_le_max (le_refl 0) (min_le_min (le_refl _) hmono)

/-- C3 witness: an ordered viewport on a five-sample series. -/
theorem brushIndexRange_monotone_witness :
    ((10 : ℚ) ≤ 90 ∧ 1 ≤ 5) ∧
    ((brushIndexRange ⟨10, 90⟩ 5).1 ≤ (brushIndexRange ⟨10, 90⟩ 5).2 ∧
      0 ≤ (brushIndexRange ⟨10, 90⟩ 5).1 ∧ (brushIndexRange ⟨10, 90⟩ 5).1 ≤ (5 : ℤ) - 1 ∧
      0 ≤ (brushIndexRange ⟨10, 90⟩ 5).2 ∧ (brushIndexRange ⟨10, 90⟩ 5).2 ≤ (5 : ℤ) - 1) :=
  ⟨⟨by norm_num, by norm_num⟩,
    brushIndexRange_monotone ⟨10, 90⟩ 5 (by norm_num) (by norm_num)⟩

theorem toPct_eq_specToPct (len : ℕ) (idx : ℚ) : toPct len idx = specToPct len idx := by
  rw [toPct, specToPct]
  rw [max_mul_of_nonneg _ _ (by norm_num : (0 : ℚ) ≤ 100),
    min_mul_of_nonneg _ _ (by norm_num : (0 : ℚ) ≤ 100)]
  norm_num

/-- C5 counterexample: a chart whose `displayData` has length 1 that reports
the drag pair `(0, 1)` pushes `end = 100` — not `0` — to the shared
viewport; the computed percentage for index 1 is 100, not 0. -/
theorem brushChange_length_one_counterexample :
    (brushChange (⟨false, false, [7], none, ⟨0, 100⟩⟩ : ChartState ℕ)
        (some 0) (some 1)).brush.«end» = 100 ∧
    toPct 1 1 = 100 ∧ ¬ (100 : ℚ) = 0 := by
  refine ⟨?_, ?_, by norm_num⟩ <;> norm_num [brushChange, toPct]

/-- C5 amended: when a chart reports a raw drag index pair, the percentages
pushed to the shared viewport equal
`clamp(idx / max(len - 1, 1), 0, 1) * 100` as the spec states; for a series
of length 1 the computed percentage is 0 exactly for reported indices
`≤ 0` — in particular for the single valid index 0 — while indices `≥ 1` are
clamped to a positive percentage up to 100. -/
theorem brushChange_pushes_spec_percentages {α : Type} (s : ChartState α) (a b : ℤ) :
    (brushChange s (some a) (some b)).brush =
      ⟨specToPct s.displayData.length (a : ℚ), specToPct s.displayData.length (b : ℚ)⟩ ∧
    (∀ idx : ℚ, idx ≤ 0 → toPct 1 idx = 0) := by
  constructor
  · rw [brushChange]
    simp only [toPct_eq_specToPct]
  · intro idx hidx
    rw [toPct]
    have hm : max (((1 : ℕ) : ℚ) - 1) 1 = 1 := by norm_num
    rw [hm, div_one]
    have hmul : idx * 100 ≤ 0 := mul_nonpos_of_nonpos_of_nonneg hidx (by norm_num)
    rw [min_eq_right (le_trans hmul (by norm_num))]
    exact max_eq_left hmul

/-- C5 witness: a three-sample chart reporting the pair `(1, 2)`, and the
degenerate length-1 percentage at the valid index 0. -/
theorem brushChange_pushes_spec_percentages_witness :
    ((brushChange (⟨false, false, [5, 6, 7], none, ⟨0, 100⟩⟩ : ChartState ℕ)
        (some 1) (some 2)).brush = ⟨specToPct 3 ((1 : ℤ) : ℚ), specToPct 3 ((2 : ℤ) : ℚ)⟩) ∧
    ((0 : ℚ) ≤ 0 ∧ toPct 1 0 = 0) :=
  ⟨(brushChange_pushes_spec_percentages
      (⟨false, false, [5, 6, 7], none, ⟨0, 100⟩⟩ : ChartState ℕ) 1 2).1,
    le_refl 0,
    (brushChange_pushes_spec_percentages
      (⟨false, false, [5, 6, 7], none, ⟨0, 100⟩⟩ : ChartState ℕ) 1 2).2 0 (le_refl 0)⟩

/-- C7: for every series length `len ≥ 2` and every index `i ∈ [0, len-1]`,
mapping `i` to a percentage with `toPct` and back with `brushIndexRange`
returns exactly `i` (rational arithmetic has no rounding drift), hence an
index within 1 of the original as the spec claims. -/
theorem round_trip_stability (len i : ℕ) (hlen : 2 ≤ len) (hi : i ≤ len - 1) :
    (brushIndexRange ⟨toPct len (i : ℚ), toPct len (i : ℚ)⟩ len).1 = (i : ℤ) ∧
    (brushIndexRange ⟨toPct len (i : ℚ), toPct len (i : ℚ)⟩ len).2 = (i : ℤ) ∧
    ((brushIndexRange ⟨toPct len (i : ℚ), toPct len (i : ℚ)⟩ len).1 - (i : ℤ)).natAbs ≤ 1 ∧
    ((brushIndexRange ⟨toPct len (i : ℚ), toPct len (i : ℚ)⟩ len).2 - (i : ℤ)).natAbs ≤ 1 := by
  have hi' : i + 1 ≤ len := by omega
  have hlenQ : (2 : ℚ) ≤ (len : ℚ) := by exact_mod_cast hlen
  have hm0 : (0 : ℚ) < (len : ℚ) - 1 := by linarith
  have hmaxm : max ((len : ℚ) - 1) 1 = (len : ℚ) - 1 := max_eq_left (by linarith)
  have hiled : (i : ℚ) ≤ (len : ℚ) - 1 := by
    have : ((i : ℚ)) + 1 ≤ (len : ℚ) := by exact_mod_cast hi'
    linarith
  have hfrac1 : (i : ℚ) / ((len : ℚ) - 1) * 100 ≤ 100 := by
    have h1 : (i : ℚ) / ((len : ℚ) - 1) ≤ 1 := (div_le_one hm0).mpr hiled
    linarith
  have hfrac0 : (0 : ℚ) ≤ (i : ℚ) / ((len : ℚ) - 1) * 100 := by positivity
  have hpct : toPct len (i : ℚ) = (i : ℚ) / ((len : ℚ) - 1) * 100 := by
    rw [toPct]
    rw [hmaxm, min_eq_right hfrac1]
    exact max_eq_right hfrac0
  have hM : max ((len : ℤ) - 1) 0 = (len : ℤ) - 1 := max_eq_left (by omega)
  have harg : toPct len (i : ℚ) / 100 * (((len : ℤ) - 1 : ℤ) : ℚ) = ((i : ℤ) : ℚ) := by
    rw [hpct]
    push_cast
    field_simp
    ring
  have hidx : max 0 (min ((len : ℤ) - 1)
      (jsRound (toPct len (i : ℚ) / 100 * (((len : ℤ) - 1 : ℤ) : ℚ)))) = (i : ℤ) := by
    rw [harg, jsRound_intCast]
    rw [min_eq_right (by omega : (i : ℤ) ≤ (len : ℤ) - 1)]
    exact max_eq_right (by omega)
  have h1 : (brushIndexRange ⟨toPct len (i : ℚ), toPct len (i : ℚ)⟩ len).1 = (i : ℤ) := by
    rw [brushIndexRange]
    rw [if_neg (by omega : ¬ max ((len : ℤ) - 1) 0 ≤ 0)]
    simp only [hM]
    exact hidx
  have h2 : (brushIndexRange ⟨toPct len (i : ℚ), toPct len (i : ℚ)⟩ len).2 = (i : ℤ) := by
    rw [brushIndexRange]
    rw [if_neg (by omega : ¬ max ((len : ℤ) - 1) 0 ≤ 0)]
    simp only [hM]
    exact hidx
  refine ⟨h1, h2, ?_, ?_⟩
  · rw [h1]
    simp
  · rw [h2]
    simp

/-- C7 witness: series length 3, index 2. -/
theorem round_trip_stability_witness :
    (2 ≤ 3 ∧ (2 : ℕ) ≤ 3 - 1) ∧
    ((brushIndexRange ⟨toPct 3 ((2 : ℕ) : ℚ), toPct 3 ((2 : ℕ) : ℚ)⟩ 3).1 = ((2 : ℕ) : ℤ) ∧
      (brushIndexRange ⟨toPct 3 ((2 : ℕ) : ℚ), toPct 3 ((2 : ℕ) : ℚ)⟩ 3).2 = ((2 : ℕ) : ℤ) ∧
      ((brushIndexRange ⟨toPct 3 ((2 : ℕ) : ℚ), toPct 3 ((2 : ℕ) : ℚ)⟩ 3).1 -
        ((2 : ℕ) : ℤ)).natAbs ≤ 1 ∧
      ((brushIndexRange ⟨toPct 3 ((2 : ℕ) : ℚ), toPct 3 ((2 : ℕ) : ℚ)⟩ 3).2 -
        ((2 : ℕ) : ℤ)).natAbs ≤ 1) :=
  ⟨⟨by norm_num, by norm_num⟩, round_trip_stability 3 2 (by norm_num) (by norm_num)⟩

/-- C6 counterexample: a chart whose series length just changed to 1 while
idle, holding the out-of-range viewport `(150, 200)`, runs no correction at
all: the early `maxIndex ≤ 0` return skips the clamp, leaving
`start = 150 > 100` in place. -/
theorem viewportCorrection_skips_degenerate :
    viewportCorrection (⟨false, false, [7], none, ⟨150, 200⟩⟩ : ChartState ℕ) = none ∧
    ¬ ((⟨false, false, [7], none, ⟨150, 200⟩⟩ : ChartState ℕ).brush.start ≤ 100) := by
  constructor
  · norm_num [viewportCorrection]
  · norm_num

/-- C6 amended: whenever a chart's series length changes to a value of at
least 2 while no interaction is in progress, the correction effect clamps
the stored viewport into `[0, 100]` with `start ≤ end`, rewrites the shared
viewport only when clamping changed a value, and is idempotent; charts whose
series length is 0 or 1 skip the correction entirely. -/
theorem viewportCorrection_clamps {α : Type} (s : ChartState α)
    (hd : s.dragging = false) (hl : 2 ≤ s.displayData.length) :
    (0 ≤ (afterCorrection s).start ∧
      (afterCorrection s).start ≤ (afterCorrection s).«end» ∧
      (afterCorrection s).«end» ≤ 100) ∧
    (∀ b', viewportCorrection s = some b' → b' ≠ s.brush) ∧
    viewportCorrection { s with brush := afterCorrection s } = none := by
  have hnd : ¬ s.dragging = true := by simp [hd]
  have hmaxpos : ¬ (max ((s.displayData.length : ℤ) - 1) 0 ≤ 0) := by
    rw [max_le_iff]
    rintro ⟨h1, -⟩
    have h2 : (2 : ℤ) ≤ (s.displayData.length : ℤ) := by exact_mod_cast hl
    omega
  have hvc : viewportCorrection s =
      (if max 0 (min s.brush.start 100) ≠ s.brush.start ∨
          max (max 0 (min s.brush.start 100)) (min s.brush.«end» 100) ≠ s.brush.«end» then
        some ⟨max 0 (min s.brush.start 100),
          max (max 0 (min s.brush.start 100)) (min s.brush.«end» 100)⟩
      else none) := by
    simp only [viewportCorrection]
    rw [if_neg hnd, if_neg hmaxpos]
  set ps : ℚ := max 0 (min s.brush.start 100) with hps
  set pe : ℚ := max ps (min s.brush.«end» 100) with hpe
  have hps0 : 0 ≤ ps := le_max_left 0 _
  have hpspe : ps ≤ pe := le_max_left _ _
  have hps100 : ps ≤ 100 := max_le (by norm_num) (min_le_right _ _)
  have hpe100 : pe ≤ 100 := max_le hps100 (min_le_right _ _)
  have hfix_s : max 0 (min ps 100) = ps := by
    rw [min_eq_left hps100]
    exact max_eq_right hps0
  have hfix_e : max (max 0 (min ps 100)) (min pe 100) = pe := by
    rw [hfix_s, min_eq_left hpe100]
    exact max_eq_right hpspe
  by_cases hchange : ps ≠ s.brush.start ∨ pe ≠ s.brush.«end»
  · have haft : afterCorrection s = ⟨ps, pe⟩ := by
      rw [afterCorrection, hvc, if_pos hchange]
      rfl
    refine ⟨?_, ?_, ?_⟩
    · rw [haft]
      exact ⟨hps0, hpspe, hpe100⟩
    · intro b' hb'
      rw [hvc, if_pos hchange] at hb'
      intro heq
      rw [← Option.some_inj.mp hb'] at heq
      rcases hchange with hc | hc
      · exact hc (congrArg BrushState.start heq)
      · exact hc (congrArg BrushState.«end» heq)
    · rw [haft]
      have hvc' : viewportCorrection { s with brush := (⟨ps, pe⟩ : BrushState) } =
          (if max 0 (min ps 100) ≠ ps ∨
              max (max 0 (min ps 100)) (min pe 100) ≠ pe then
            some ⟨max 0 (min ps 100), max (max 0 (min ps 100)) (min pe 100)⟩
          else none) := by
        simp only [viewportCorrection]
        rw [if_neg hnd, if_neg hmaxpos]
      rw [hvc']
      rw [if_neg ?_]
      push_neg
      exact ⟨hfix_s, hfix_e⟩
  · push_neg at hchange
    obtain ⟨heqs, heqe⟩ := hchange
    have hchange' : ¬ (ps ≠ s.brush.start ∨ pe ≠ s.brush.«end») := by
      push_neg
      exact ⟨heqs, heqe⟩
    have haft : afterCorrection s = s.brush := by
      rw [afterCorrection, hvc, if_neg hchange']
      rfl
    refine ⟨?_, ?_, ?_⟩
    · rw [haft, ← heqs, ← heqe]
      exact ⟨hps0, hpspe, hpe100⟩
    · intro b' hb'
      rw [hvc, if_neg hchange'] at hb'
      exact absurd hb' (by simp)
    · rw [haft]
      show viewportCorrection s = none
      rw [hvc, if_neg hchange']

/-- C6 witness: an idle three-sample chart holding the corrupted viewport
`(-5, 250)`. -/
theorem viewportCorrection_clamps_witness :
    ((⟨false, false, [1, 2, 3], none, ⟨-5, 250⟩⟩ : ChartState ℕ).dragging = false ∧
      2 ≤ (⟨false, false, [1, 2, 3], none, ⟨-5, 250⟩⟩ : ChartState ℕ).displayData.length) ∧
    ((0 ≤ (afterCorrection (⟨false, false, [1, 2, 3], none, ⟨-5, 250⟩⟩ : ChartState ℕ)).start ∧
      (afterCorrection (⟨false, false, [1, 2, 3], none, ⟨-5, 250⟩⟩ : ChartState ℕ)).start ≤
        (afterCorrection (⟨false, false, [1, 2, 3], none, ⟨-5, 250⟩⟩ : ChartState ℕ)).«end» ∧
      (afterCorrection (⟨false, false, [1, 2, 3], none, ⟨-5, 250⟩⟩ : ChartState ℕ)).«end» ≤ 100) ∧
    (∀ b', viewportCorrection (⟨false, false, [1, 2, 3], none, ⟨-5, 250⟩⟩ : ChartState ℕ) =
        some b' → b' ≠ (⟨false, false, [1, 2, 3], none, ⟨-5, 250⟩⟩ : ChartState ℕ).brush) ∧
    viewportCorrection { (⟨false, false, [1, 2, 3], none, ⟨-5, 250⟩⟩ : ChartState ℕ) with
      brush := afterCorrection (⟨false, false, [1, 2, 3], none, ⟨-5, 250⟩⟩ : ChartState ℕ) } =
        none) :=
  ⟨⟨rfl, by norm_num⟩,
    viewportCorrection_clamps (⟨false, false, [1, 2, 3], none, ⟨-5, 250⟩⟩ : ChartState ℕ)
      rfl (by norm_num)⟩

theorem foldl_max_spec (l : List ℚ) (v : ℚ) :
    v ≤ l.foldl max v ∧ (∀ x ∈ l, x ≤ l.foldl max v) ∧
      (l.foldl max v = v ∨ l.foldl max v ∈ l) := by
  induction l generalizing v with
  | nil => simp
  | cons a as ih =>
      obtain ⟨h1, h2, h3⟩ := ih (max v a)
      rw [List.foldl_cons]
      refine ⟨le_trans (le_max_left v a) h1, ?_, ?_⟩
      · intro x hx
        rw [List.mem_cons] at hx
        rcases hx with rfl | hx
        · exact le_trans (le_max_right v x) h1
        · exact h2 x hx
      · rcases h3 with h | h
        · rcases max_choice v a with hva | hva
          · left
            rw [h, hva]
          · right
            rw [h, hva]
            exact List.mem_cons_self a as
        · right
          exact List.mem_cons_of_mem a h

theorem foldl_min_spec (l : List ℚ) (v : ℚ) :
    l.foldl min v ≤ v ∧ (∀ x ∈ l, l.foldl min v ≤ x) ∧
      (l.foldl min v = v ∨ l.foldl min v ∈ l) := by
  induction l generalizing v with
  | nil => simp
  | cons a as ih =>
      obtain ⟨h1, h2, h3⟩ := ih (min v a)
      rw [List.foldl_cons]
      refine ⟨le_trans h1 (min_le_left v a), ?_, ?_⟩
      · intro x hx
        rw [List.mem_cons] at hx
        rcases hx with rfl | hx
        · exact le_trans h1 (min_le_right v x)
        · exact h2 x hx
      · rcases h3 with h | h
        · rcases min_choice v a with hva | hva
          · left
            rw [h, hva]
          · right
            rw [h, hva]
            exact List.mem_cons_self a as
        · right
          exact List.mem_cons_of_mem a h

theorem foldl_add_eq_sum (l : List ℚ) (init : ℚ) :
    l.foldl (fun sum w => sum + w) init = init + l.sum := by
  induction l generalizing init with
  | nil => simp
  | cons a as ih =>
      rw [List.foldl_cons, ih, List.sum_cons]
      ring

/-- C8: for every list of rows and every line key, the statistics are
computed over exactly the finite numeric values stored under that key
(missing keys, strings, `NaN` and infinities excluded); the result is the
`null` sentinel iff no such value exists, and otherwise `max`/`min` are the
greatest/least of those values (attained by one of them) and `avg` is their
arithmetic mean. -/
theorem stats_characterization (rows : List Sample) (k : String) :
    (∀ q : ℚ, q ∈ lineValues rows k ↔
      some (JSVal.num q) ∈ rows.map (fun r => getField r k)) ∧
    (statsFor rows k = none ↔ lineValues rows k = []) ∧
    (∀ M m a, statsFor rows k = some (M, m, a) →
      (M ∈ lineValues rows k ∧ ∀ x ∈ lineValues rows k, x ≤ M) ∧
      (m ∈ lineValues rows k ∧ ∀ x ∈ lineValues rows k, m ≤ x) ∧
      a = (lineValues rows k).sum / ((lineValues rows k).length : ℚ)) := by
  refine ⟨?_, ?_⟩
  · intro q
    rw [lineValues, List.mem_filterMap]
    constructor
    · rintro ⟨v, hv, hgv⟩
      cases v with
      | none => exact absurd hgv (by simp)
      | some w =>
          cases w with
          | num q' =>
              simp only [Option.some_inj] at hgv
              rw [hgv] at hv
              exact hv
          | nan => exact absurd hgv (by simp)
          | inf p => exact absurd hgv (by simp)
          | str t => exact absurd hgv (by simp)
    · intro hmem
      exact ⟨some (JSVal.num q), hmem, rfl⟩
  · cases hlv : lineValues rows k with
    | nil =>
        constructor
        · simp [statsFor, hlv]
        · intro M m a hsome
          rw [statsFor, hlv] at hsome
          exact absurd hsome (by simp)
    | cons v vs =>
        constructor
        · rw [statsFor, hlv]
          simp
        · intro M m a hsome
          rw [statsFor, hlv] at hsome
          simp only [Option.some_inj, Prod.mk.injEq] at hsome
          obtain ⟨hM, hm, ha⟩ := hsome
          obtain ⟨hx1, hx2, hx3⟩ := foldl_max_spec vs v
          obtain ⟨hn1, hn2, hn3⟩ := foldl_min_spec vs v
          refine ⟨⟨?_, ?_⟩, ⟨?_, ?_⟩, ?_⟩
          · rw [← hM]
            rcases hx3 with h | h
            · rw [h]
              exact List.mem_cons_self v vs
            · exact List.mem_cons_of_mem v h
          · intro x hx
            rw [List.mem_cons] at hx
            rw [← hM]
            rcases hx with rfl | hx
            · exact hx1
            · exact hx2 x hx
          · rw [← hm]
            rcases hn3 with h | h
            · rw [h]
              exact List.mem_cons_self v vs
            · exact List.mem_cons_of_mem v h
          · intro x hx
            rw [List.mem_cons] at hx
            rw [← hm]
            rcases hx with rfl | hx
            · exact hn1
            · exact hn2 x hx
          · rw [← ha, foldl_add_eq_sum, zero_add]

/-- C8 witness: the statistics of the scenario series under key `fps`. -/
theorem stats_characterization_witness :
    statsFor scenarioRows "fps" = some (60, 10, 100/3) ∧
    ((60 ∈ lineValues scenarioRows "fps" ∧ ∀ x ∈ lineValues scenarioRows "fps", x ≤ 60) ∧
      (10 ∈ lineValues scenarioRows "fps" ∧ ∀ x ∈ lineValues scenarioRows "fps", 10 ≤ x) ∧
      (100/3 : ℚ) =
        (lineValues scenarioRows "fps").sum / ((lineValues scenarioRows "fps").length : ℚ)) := by
  have hlv : lineValues scenarioRows "fps" = [10, 60, 30] := by decide
  have h : statsFor scenarioRows "fps" = some (60, 10, 100/3) := by
    rw [statsFor, hlv]
    norm_num
  exact ⟨h, (stats_characterization scenarioRows "fps").2.2 60 10 (100/3) h⟩

/-- C9 counterexample: the scenario's maximum 60 has magnitude below 100 and
is therefore formatted with one decimal place, `"60.0"` — not the `"60"` the
claim states (likewise 10 formats as `"10.0"`). -/
theorem formatNumber_scenario_counterexample :
    formatNumber (some 60) = "60.0" ∧ ¬ ("60.0" = "60") := by
  constructor
  · norm_num [formatNumber, toFixed, padZeros]
    decide
  · decide

/-- C9 amended: a `null` statistic renders as an em dash, magnitudes of at
least 100 render with zero decimal places and all others with one decimal
place; in the scenario series the visible window is all 3 samples and the
`fps` statistics `max 60 / avg 100/3 / min 10` format as `"60.0"`, `"33.3"`
and `"10.0"` (one-decimal branch in all three cases). -/
theorem formatNumber_spec :
    (∀ v : ℚ, 100 ≤ |v| → formatNumber (some v) = toFixed v 0) ∧
    (∀ v : ℚ, |v| < 100 → formatNumber (some v) = toFixed v 1) ∧
    formatNumber none = "—" ∧
    (visibleData scenarioRows (brushIndexRange ⟨0, 100⟩ scenarioRows.length) = scenarioRows ∧
      statsFor scenarioRows "fps" = some (60, 10, 100/3) ∧
      formatNumber (some 60) = "60.0" ∧
      formatNumber (some (100/3)) = "33.3" ∧
      formatNumber (some 10) = "10.0") := by
  refine ⟨?_, ?_, rfl, ?_, ?_, ?_, ?_, ?_⟩
  · intro v hv
    simp only [formatNumber]
    rw [if_pos hv]
  · intro v hv
    simp only [formatNumber]
    rw [if_neg (not_le.mpr hv)]
  · have hidx : brushIndexRange ⟨0, 100⟩ scenarioRows.length = (0, 2) := by
      norm_num [brushIndexRange, jsRound, scenarioRows]
    rw [hidx]
    norm_num [visibleData, jsSlice, scenarioRows]
  · have hlv : lineValues scenarioRows "fps" = [10, 60, 30] := by decide
    rw [statsFor, hlv]
    norm_num
  · norm_num [formatNumber, toFixed, padZeros]
    decide
  · have h1 : |(100 : ℚ)/3| = 100/3 := abs_of_nonneg (by norm_num)
    norm_num [formatNumber, toFixed, padZeros, h1]
    decide
  · norm_num [formatNumber, toFixed, padZeros]
    decide

/-- C9 witness: the zero-decimal branch at 123 and the one-decimal branch at
60. -/
theorem formatNumber_spec_witness :
    ((100 : ℚ) ≤ |(123 : ℚ)| ∧ formatNumber (some 123) = toFixed 123 0) ∧
    (|(60 : ℚ)| < 100 ∧ formatNumber (some 60) = toFixed 60 1) :=
  ⟨⟨by norm_num, formatNumber_spec.1 123 (by norm_num)⟩,
    ⟨by norm_num, formatNumber_spec.2.1 60 (by norm_num)⟩⟩

end PerfX
